import Mathlib

/-!
Shallow embedding of the stock ledger and reservation engine of
`app/models/inventory.py` (classes `Inventory`, `StockMovement`,
`StockReservation`), together with theorems settling the frozen claims
about it.

Modelling conventions:
* SQLAlchemy `Integer` columns become `Int` (Python integers are unbounded).
* `datetime` values become `Int` timestamps; `datetime.utcnow()` becomes an
  explicit `now : Int` argument threaded through the operations.
* The optional `db_session` argument of the mutators becomes a
  `session : Bool` flag: when it is `true` the movement-recording branch of
  the Python code runs, when it is `false` it does not.
* A record's reservations (the ORM relationship `Inventory.reservations`)
  are materialised as a list owned by the record; an operation acting on a
  reservation object is modelled as acting on the reservation at a list
  index.  The human-readable French `reason` strings built with f-strings
  are not modelled (the `reason` field is kept but filled with `none`).
-/

namespace MaefInventory

/-- `StockMovementType` of `app/models/inventory.py`. -/
inductive StockMovementType where
  | RESTOCK
  | SALE
  | RETURN
  | DAMAGED
  | ADJUSTMENT
  | RESERVED
  | UNRESERVED
  | TRANSFER
deriving DecidableEq, Repr

/-- `StockMovement` of `app/models/inventory.py`: one immutable ledger
entry (`movement_type`, signed `quantity`, the before/after quantities,
and the external `reference`). -/
structure StockMovement where
  movement_type : StockMovementType
  quantity : Int
  quantity_before : Int
  quantity_after : Int
  reason : Option String
  reference : Option String
deriving DecidableEq, Repr

/-- `StockReservation` of `app/models/inventory.py`: `quantity`,
`reference`, the `is_active` flag (column default `True`), `expires_at`,
`released_at`, `fulfilled_at`. -/
structure StockReservation where
  quantity : Int
  reference : Option String
  is_active : Bool
  expires_at : Option Int
  released_at : Option Int
  fulfilled_at : Option Int
deriving DecidableEq, Repr

/-- The quantity-bearing state of one `Inventory` row of
`app/models/inventory.py`, together with its owned movement history and
reservations. -/
structure Inventory where
  qty_on_hand : Int
  qty_reserved : Int
  qty_committed : Int
  last_movement_at : Option Int
  movements : List StockMovement
  reservations : List StockReservation
deriving DecidableEq, Repr

/-- `Inventory.qty_available`: `qty_on_hand - qty_reserved - qty_committed`. -/
def Inventory.qty_available (s : Inventory) : Int :=
  s.qty_on_hand - s.qty_reserved - s.qty_committed

/-- `Inventory.can_fulfill`: `qty_available >= quantity`. -/
def Inventory.can_fulfill (s : Inventory) (quantity : Int) : Bool :=
  decide (s.qty_available ≥ quantity)

/-- `Inventory.adjust_stock`: unconditionally does
`self.qty_on_hand += quantity_change` and builds a `StockMovement` with the
before/after quantities; when a `db_session` is supplied the movement is
added to the session and `last_movement_at` is stamped.  The Python method
performs no validation of any kind. -/
def Inventory.adjust_stock (s : Inventory) (quantity_change : Int)
    (movement_type : StockMovementType) (reason reference : Option String)
    (session : Bool) (now : Int) : Inventory :=
  let old_qty := s.qty_on_hand
  let s1 : Inventory := { s with qty_on_hand := s.qty_on_hand + quantity_change }
  let movement : StockMovement :=
    { movement_type := movement_type
      quantity := quantity_change
      quantity_before := old_qty
      quantity_after := s1.qty_on_hand
      reason := reason
      reference := reference }
  if session then
    { s1 with
      movements := s1.movements ++ [movement]
      last_movement_at := some now }
  else s1

/-- `Inventory.reserve_stock`: returns `None` (modelled `none`) when
`can_fulfill quantity` fails, otherwise increments `qty_reserved` by
`quantity`, creates a `StockReservation` (column default `is_active = True`)
and, when a session is supplied, records a zero-quantity `RESERVED`
movement via `adjust_stock`. -/
def Inventory.reserve_stock (s : Inventory) (quantity : Int)
    (reference : Option String) (expires_at : Option Int)
    (session : Bool) (now : Int) : Option StockReservation × Inventory :=
  if ¬ s.can_fulfill quantity then
    (none, s)
  else
    let s1 : Inventory := { s with qty_reserved := s.qty_reserved + quantity }
    let r : StockReservation :=
      { quantity := quantity
        reference := reference
        is_active := true
        expires_at := expires_at
        released_at := none
        fulfilled_at := none }
    let s2 : Inventory := { s1 with reservations := s1.reservations ++ [r] }
    let s3 : Inventory :=
      if session then s2.adjust_stock 0 .RESERVED none reference true now else s2
    (some r, s3)

/-- `Inventory.unreserve_stock` acting on the reservation at index `idx`:
if the reservation `is_active`, decrement `qty_reserved` by its quantity,
clear `is_active`, stamp `released_at`, and with a session record a
zero-quantity `UNRESERVED` movement; otherwise do nothing. -/
def Inventory.unreserve_stock (s : Inventory) (idx : Nat)
    (session : Bool) (now : Int) : Inventory :=
  match s.reservations[idx]? with
  | none => s
  | some r =>
    if r.is_active then
      let s1 : Inventory :=
        { s with
          qty_reserved := s.qty_reserved - r.quantity
          reservations := s.reservations.set idx
            { r with is_active := false, released_at := some now } }
      if session then s1.adjust_stock 0 .UNRESERVED none r.reference true now else s1
    else s

/-- `Inventory.fulfill_reservation` acting on the reservation at index
`idx`: if the reservation `is_active`, decrement `qty_reserved` and
`qty_on_hand` by its quantity, clear `is_active`, stamp `fulfilled_at`,
and with a session call `adjust_stock (-quantity) SALE` — which, as in the
source, decrements `qty_on_hand` a second time while recording the `SALE`
movement; otherwise do nothing. -/
def Inventory.fulfill_reservation (s : Inventory) (idx : Nat)
    (session : Bool) (now : Int) : Inventory :=
  match s.reservations[idx]? with
  | none => s
  | some r =>
    if r.is_active then
      let s1 : Inventory :=
        { s with
          qty_reserved := s.qty_reserved - r.quantity
          qty_on_hand := s.qty_on_hand - r.quantity
          reservations := s.reservations.set idx
            { r with is_active := false, fulfilled_at := some now } }
      if session then s1.adjust_stock (-r.quantity) .SALE none r.reference true now else s1
    else s

/-- `StockReservation.is_expired`: `expires_at and utcnow() > expires_at`
(a `None` expiry is falsy, so a reservation without expiry never expires). -/
def StockReservation.is_expired (r : StockReservation) (now : Int) : Bool :=
  match r.expires_at with
  | none => false
  | some t => decide (now > t)

/-- `StockReservation.should_be_released`: `is_active and is_expired`. -/
def StockReservation.should_be_released (r : StockReservation) (now : Int) : Bool :=
  r.is_active && r.is_expired now

/-- Total quantity held by the reservations whose `is_active` flag is set. -/
def activeSum : List StockReservation → Int
  | [] => 0
  | r :: rest => (if r.is_active then r.quantity else 0) + activeSum rest

/-- One call to a mutating method of `Inventory`, for reasoning about call
sequences.  `release`/`fulfill` address the reservation at a list index. -/
inductive StockOp where
  | adjust (quantity_change : Int) (movement_type : StockMovementType)
  | reserve (quantity : Int)
  | release (idx : Nat)
  | fulfill (idx : Nat)
deriving DecidableEq, Repr

/-- Well-formed non-`adjust` call: `adjust` is excluded and a `reserve`
call carries a nonnegative quantity. -/
def okOp : StockOp → Prop
  | .adjust _ _ => False
  | .reserve q => 0 ≤ q
  | .release _ => True
  | .fulfill _ => True

instance (op : StockOp) : Decidable (okOp op) :=
  match op with
  | .adjust _ _ => isFalse (fun h => h)
  | .reserve q => inferInstanceAs (Decidable (0 ≤ q))
  | .release _ => isTrue True.intro
  | .fulfill _ => isTrue True.intro

/-- Apply one call to the record (the `reserve` return value is dropped,
its reservation is appended to the record's list). -/
def Inventory.applyOp (session : Bool) (now : Int) (s : Inventory) : StockOp → Inventory
  | .adjust qc mt => s.adjust_stock qc mt none none session now
  | .reserve q => (s.reserve_stock q none none session now).2
  | .release idx => s.unreserve_stock idx session now
  | .fulfill idx => s.fulfill_reservation idx session now

/-- Apply a sequence of calls left to right. -/
def Inventory.runOps (session : Bool) (now : Int) (s : Inventory)
    (ops : List StockOp) : Inventory :=
  ops.foldl (Inventory.applyOp session now) s

/-- Valid state: nonnegative committed and reserved quantities, `reserved
≤ on_hand`, the reserved quantity bounds the total quantity of active
reservations, and every active reservation has a nonnegative quantity. -/
def Inventory.Wf (s : Inventory) : Prop :=
  0 ≤ s.qty_committed ∧ 0 ≤ s.qty_reserved ∧ s.qty_reserved ≤ s.qty_on_hand ∧
  activeSum s.reservations ≤ s.qty_reserved ∧
  ∀ r ∈ s.reservations, r.is_active = true → 0 ≤ r.quantity

instance (s : Inventory) : Decidable s.Wf :=
  inferInstanceAs (Decidable (0 ≤ s.qty_committed ∧ 0 ≤ s.qty_reserved ∧
    s.qty_reserved ≤ s.qty_on_hand ∧ activeSum s.reservations ≤ s.qty_reserved ∧
    ∀ r ∈ s.reservations, r.is_active = true → 0 ≤ r.quantity))

/-- `qty_reserved` agrees exactly with the total quantity of active
reservations, and active reservations have nonnegative quantities. -/
def Inventory.ReservedCoherent (s : Inventory) : Prop :=
  s.qty_reserved = activeSum s.reservations ∧
  ∀ r ∈ s.reservations, r.is_active = true → 0 ≤ r.quantity

instance (s : Inventory) : Decidable s.ReservedCoherent :=
  inferInstanceAs (Decidable (s.qty_reserved = activeSum s.reservations ∧
    ∀ r ∈ s.reservations, r.is_active = true → 0 ≤ r.quantity))

/-- The reservation at index `idx` exists and is terminal (not active). -/
def Inventory.terminalAt (s : Inventory) (idx : Nat) : Prop :=
  ∃ r, s.reservations[idx]? = some r ∧ r.is_active = false

/-!
### Interleaved concurrent `reserve_stock` calls

`reserve_stock` performs two separate accesses to the shared record: it
first reads the current state through `can_fulfill` (line 136 of
`app/models/inventory.py`) and only afterwards writes
`qty_reserved += quantity` (line 139).  Nothing in the source guards the
pair (no lock, no compare-and-swap), so two calls running in different
sessions may interleave between the two accesses.  The micro-step machine
below models each in-flight call by the data it has produced so far.
-/

/-- One in-flight `reserve_stock` call: its requested quantity, the value
its `can_fulfill` read returned (once executed), and its final outcome
(`some true` = reservation created, `some false` = `None` returned). -/
structure ReserveCall where
  quantity : Int
  checkResult : Option Bool
  result : Option Bool
deriving DecidableEq, Repr

/-- Shared record plus the in-flight calls. -/
structure ConcState where
  record : Inventory
  calls : List ReserveCall
deriving DecidableEq, Repr

/-- Run the next micro-step of call `i`: first its `can_fulfill` read of
the shared record, then — according to the value that read returned — its
`qty_reserved` write (success) or its `None` return (failure).  A finished
or unknown call index leaves the state unchanged. -/
def stepReserve (st : ConcState) (i : Nat) : ConcState :=
  match st.calls[i]? with
  | none => st
  | some c =>
    match c.checkResult with
    | none =>
      { st with
        calls := st.calls.set i
          { c with checkResult := some (st.record.can_fulfill c.quantity) } }
    | some b =>
      match c.result with
      | none =>
        if b then
          { record := { st.record with
              qty_reserved := st.record.qty_reserved + c.quantity }
            calls := st.calls.set i { c with result := some true } }
        else
          { st with calls := st.calls.set i { c with result := some false } }
      | some _ => st

/-- Run a schedule: the list names, in order, which call executes its next
micro-step. -/
def runSchedule (st : ConcState) (sched : List Nat) : ConcState :=
  sched.foldl stepReserve st

/-- Total quantity of the calls that succeeded. -/
def succeededQty (calls : List ReserveCall) : Int :=
  (calls.map (fun c => if c.result = some true then c.quantity else 0)).sum

/-!
### The ExpirySweeper

Modelled from the spec: the repository registers no reservation-expiry
job — `add_periodic_jobs` in `app/core/scheduler.py` only registers the
token-cleanup, cart-cleanup and Instagram-ingestion jobs — so the
ExpirySweeper pass of spec §4.3 is missing from the source.  Following the
spec's words ("for each StockRecord with Active reservations whose
`expires_at < now`, calls `release()`"), one pass walks the record's
reservations and calls `unreserve_stock` on each reservation satisfying
the source predicate `StockReservation.should_be_released`.
-/

/-- Modelled from the spec: the sweeper's treatment of one reservation
index — call `release()` (`unreserve_stock`) when the reservation
`should_be_released`, otherwise leave the record alone. -/
def Inventory.sweepStep (s : Inventory) (idx : Nat) (session : Bool) (now : Int) :
    Inventory :=
  match s.reservations[idx]? with
  | some r =>
    if r.should_be_released now then s.unreserve_stock idx session now else s
  | none => s

/-- Modelled from the spec: one sweep over the reservation indices in `l`,
releasing each reservation that `should_be_released` (the repository has
no sweeper job; see the section comment above). -/
def Inventory.sweepFrom (session : Bool) (now : Int) :
    Inventory → List Nat → Inventory
  | s, [] => s
  | s, idx :: rest =>
    Inventory.sweepFrom session now (s.sweepStep idx session now) rest

/-- Modelled from the spec: one ExpirySweeper pass over a record. -/
def Inventory.sweepExpired (s : Inventory) (session : Bool) (now : Int) : Inventory :=
  Inventory.sweepFrom session now s (List.range s.reservations.length)

/-- Quantity the sweep releases at index `i`: the reservation's quantity
when it `should_be_released`, `0` otherwise. -/
def expiredTerm (now : Int) (s : Inventory) (i : Nat) : Int :=
  match s.reservations[i]? with
  | some r => if r.should_be_released now then r.quantity else 0
  | none => 0

/-- Total quantity the sweep releases over the indices in `l`. -/
def expiredQty (s : Inventory) (now : Int) (l : List Nat) : Int :=
  (l.map (expiredTerm now s)).sum

/-! ### Concrete records used to instantiate the theorems -/

/-- Empty record (all quantities `0`). -/
def inv0 : Inventory := ⟨0, 0, 0, none, [], []⟩

/-- Scenario 1 record: `on_hand = 10`, nothing reserved or committed. -/
def inv10 : Inventory := ⟨10, 0, 0, none, [], []⟩

/-- Scenario 4 record just after `reserve(4, "order-C")`:
`on_hand = 10`, `reserved = 4`, one active reservation of quantity `4`. -/
def invScen4 : Inventory :=
  ⟨10, 4, 0, none, [], [⟨4, some "order-C", true, none, none, none⟩]⟩

/-- A record holding one already-terminal (released) reservation. -/
def invTerminal : Inventory :=
  ⟨6, 0, 0, none, [], [⟨4, some "order-C", false, none, some 1, none⟩]⟩

/-- A record holding one active reservation that expired at time `3`. -/
def invExpired : Inventory :=
  ⟨10, 4, 0, none, [], [⟨4, some "order-D", true, some 3, none, none⟩]⟩

/-! ### Helper lemmas about the mutators -/

theorem adjust_stock_qty_on_hand (s : Inventory) (qc : Int) (mt : StockMovementType)
    (reason reference : Option String) (session : Bool) (now : Int) :
    (s.adjust_stock qc mt reason reference session now).qty_on_hand = s.qty_on_hand + qc := by
  cases session <;> simp [Inventory.adjust_stock]

theorem adjust_stock_qty_reserved (s : Inventory) (qc : Int) (mt : StockMovementType)
    (reason reference : Option String) (session : Bool) (now : Int) :
    (s.adjust_stock qc mt reason reference session now).qty_reserved = s.qty_reserved := by
  cases session <;> simp [Inventory.adjust_stock]

theorem adjust_stock_qty_committed (s : Inventory) (qc : Int) (mt : StockMovementType)
    (reason reference : Option String) (session : Bool) (now : Int) :
    (s.adjust_stock qc mt reason reference session now).qty_committed = s.qty_committed := by
  cases session <;> simp [Inventory.adjust_stock]

theorem adjust_stock_reservations (s : Inventory) (qc : Int) (mt : StockMovementType)
    (reason reference : Option String) (session : Bool) (now : Int) :
    (s.adjust_stock qc mt reason reference session now).reservations = s.reservations := by
  cases session <;> simp [Inventory.adjust_stock]

theorem can_fulfill_iff (s : Inventory) (q : Int) :
    s.can_fulfill q = true ↔ q ≤ s.qty_available := by
  simp [Inventory.can_fulfill, ge_iff_le]

theorem reserve_stock_of_insufficient (s : Inventory) (q : Int)
    (ref : Option String) (exp : Option Int) (session : Bool) (now : Int)
    (h : s.qty_available < q) :
    s.reserve_stock q ref exp session now = (none, s) := by
  have hc : s.can_fulfill q = false := by
    simp [Inventory.can_fulfill]; omega
  simp [Inventory.reserve_stock, hc]

theorem reserve_stock_of_sufficient (s : Inventory) (q : Int)
    (ref : Option String) (exp : Option Int) (session : Bool) (now : Int)
    (h : q ≤ s.qty_available) :
    s.reserve_stock q ref exp session now =
      (some ⟨q, ref, true, exp, none, none⟩,
       let s2 : Inventory :=
         { s with
           qty_reserved := s.qty_reserved + q
           reservations := s.reservations ++ [⟨q, ref, true, exp, none, none⟩] }
       if session then s2.adjust_stock 0 .RESERVED none ref true now else s2) := by
  have hc : s.can_fulfill q = true := (can_fulfill_iff s q).mpr h
  simp [Inventory.reserve_stock, hc]

theorem unreserve_stock_none (s : Inventory) (idx : Nat) (session : Bool) (now : Int)
    (h : s.reservations[idx]? = none) :
    s.unreserve_stock idx session now = s := by
  unfold Inventory.unreserve_stock
  rw [h]

theorem unreserve_stock_inactive (s : Inventory) (idx : Nat) (r : StockReservation)
    (session : Bool) (now : Int)
    (h : s.reservations[idx]? = some r) (ha : r.is_active = false) :
    s.unreserve_stock idx session now = s := by
  unfold Inventory.unreserve_stock
  rw [h]
  simp [ha]

theorem unreserve_stock_active (s : Inventory) (idx : Nat) (r : StockReservation)
    (session : Bool) (now : Int)
    (h : s.reservations[idx]? = some r) (ha : r.is_active = true) :
    s.unreserve_stock idx session now =
      (let s1 : Inventory :=
        { s with
          qty_reserved := s.qty_reserved - r.quantity
          reservations := s.reservations.set idx
            { r with is_active := false, released_at := some now } }
       if session then s1.adjust_stock 0 .UNRESERVED none r.reference true now else s1) := by
  unfold Inventory.unreserve_stock
  rw [h]
  simp [ha]

theorem fulfill_reservation_none (s : Inventory) (idx : Nat) (session : Bool) (now : Int)
    (h : s.reservations[idx]? = none) :
    s.fulfill_reservation idx session now = s := by
  unfold Inventory.fulfill_reservation
  rw [h]

theorem fulfill_reservation_inactive (s : Inventory) (idx : Nat) (r : StockReservation)
    (session : Bool) (now : Int)
    (h : s.reservations[idx]? = some r) (ha : r.is_active = false) :
    s.fulfill_reservation idx session now = s := by
  unfold Inventory.fulfill_reservation
  rw [h]
  simp [ha]

theorem fulfill_reservation_active (s : Inventory) (idx : Nat) (r : StockReservation)
    (session : Bool) (now : Int)
    (h : s.reservations[idx]? = some r) (ha : r.is_active = true) :
    s.fulfill_reservation idx session now =
      (let s1 : Inventory :=
        { s with
          qty_reserved := s.qty_reserved - r.quantity
          qty_on_hand := s.qty_on_hand - r.quantity
          reservations := s.reservations.set idx
            { r with is_active := false, fulfilled_at := some now } }
       if session then s1.adjust_stock (-r.quantity) .SALE none r.reference true now else s1) := by
  unfold Inventory.fulfill_reservation
  rw [h]
  simp [ha]

/-! ### Claim theorems -/

/-- C2: `reserve_stock` returns a reservation iff `qty_available ≥ quantity`
(i.e. iff `can_fulfill`); on failure it returns `none` — the `OutOfStock`
outcome as an ordinary typed result — and leaves the whole record
(quantities and reservations) unchanged; on success it increments
`qty_reserved` by exactly `quantity`, leaves `qty_on_hand` and
`qty_committed` unchanged, and the created reservation is active with the
given reference and expiry. -/
theorem reserve_stock_characterisation (s : Inventory) (q : Int)
    (ref : Option String) (exp : Option Int) (session : Bool) (now : Int) :
    ((s.reserve_stock q ref exp session now).1.isSome ↔ q ≤ s.qty_available) ∧
    (s.qty_available < q →
      s.reserve_stock q ref exp session now = (none, s)) ∧
    (q ≤ s.qty_available →
      (s.reserve_stock q ref exp session now).1 =
        some ⟨q, ref, true, exp, none, none⟩ ∧
      (s.reserve_stock q ref exp session now).2.qty_reserved = s.qty_reserved + q ∧
      (s.reserve_stock q ref exp session now).2.qty_on_hand = s.qty_on_hand ∧
      (s.reserve_stock q ref exp session now).2.qty_committed = s.qty_committed) := by
  by_cases h : q ≤ s.qty_available
  · rw [reserve_stock_of_sufficient s q ref exp session now h]
    refine ⟨by simp [h], fun hlt => absurd h (by omega), fun _ => ?_⟩
    cases session <;>
      simp [adjust_stock_qty_reserved, adjust_stock_qty_on_hand,
        adjust_stock_qty_committed]
  · have hlt : s.qty_available < q := by omega
    rw [reserve_stock_of_insufficient s q ref exp session now hlt]
    exact ⟨by simp [h], fun _ => rfl, fun hge => absurd hge h⟩

/-- Witness for C2 at the scenario-1 record and `reserve(7, "order-A")`. -/
theorem reserve_stock_characterisation_witness :
    7 ≤ inv10.qty_available ∧
    (inv10.reserve_stock 7 (some "order-A") none true 0).2.qty_reserved =
      inv10.qty_reserved + 7 :=
  ⟨by decide,
    ((reserve_stock_characterisation inv10 7 (some "order-A") none true 0).2.2
      (by decide)).2.1⟩

/-- C3 (code bug): `adjust_stock` performs no validation at all — for every
record it changes `qty_on_hand` by exactly `quantity_change` and never
fails — so on the valid empty record `adjust_stock (-1)` drives
`qty_on_hand` to `-1`, a state violating the model's own declared check
constraint `qty_on_hand >= 0` (`Inventory.__table_args__`), with no
`InvariantViolation` raised and the record mutated. -/
theorem adjust_stock_never_fails :
    (∀ (s : Inventory) (qc : Int) (mt : StockMovementType)
       (reason reference : Option String) (session : Bool) (now : Int),
       (s.adjust_stock qc mt reason reference session now).qty_on_hand =
         s.qty_on_hand + qc) ∧
    (inv0.adjust_stock (-1) .ADJUSTMENT none none true 0).qty_on_hand = -1 :=
  ⟨adjust_stock_qty_on_hand, by decide⟩

/-- C5 (code bug): fulfilling the active reservation of quantity `4` on the
scenario-4 record (`on_hand = 10`, `reserved = 4`) with a session
decrements `qty_on_hand` twice — once directly and once more inside
`adjust_stock (-4) SALE` — leaving `on_hand = 2` where the spec requires
`6`; the single recorded movement is a `sale` of quantity `-4` and the
reservation does end terminal. -/
theorem fulfill_reservation_double_decrement :
    (invScen4.fulfill_reservation 0 true 7).qty_on_hand = 2 ∧
    (invScen4.fulfill_reservation 0 true 7).qty_reserved = 0 ∧
    ((invScen4.fulfill_reservation 0 true 7).movements.map fun m => m.quantity) =
      [-4] ∧
    ((invScen4.fulfill_reservation 0 true 7).movements.map fun m => m.movement_type) =
      [.SALE] ∧
    ((invScen4.fulfill_reservation 0 true 7).reservations.map fun r => r.is_active) =
      [false] := by
  decide

/-- C7 counterexample: on a record whose only reservation is already
terminal, `fulfill_reservation` returns the record completely unchanged —
the method's output carries no error case (the Python method returns
`None`), so no `NotActive` error is returned, contradicting the claim. -/
theorem fulfill_terminal_counterexample :
    invTerminal.fulfill_reservation 0 true 5 = invTerminal ∧
    (invTerminal.reservations.map fun r => r.is_active) = [false] :=
  ⟨rfl, rfl⟩

/-- C7 (amended): `fulfill_reservation` on an already-terminal reservation
is a silent no-op: it signals no error (its only output is the record) and
leaves the record and the reservation unchanged. -/
theorem fulfill_terminal_noop (s : Inventory) (idx : Nat) (r : StockReservation)
    (session : Bool) (now : Int)
    (h : s.reservations[idx]? = some r) (ha : r.is_active = false) :
    s.fulfill_reservation idx session now = s :=
  fulfill_reservation_inactive s idx r session now h ha

/-- Witness for the amended C7 on the concrete terminal-reservation record. -/
theorem fulfill_terminal_noop_witness :
    invTerminal.fulfill_reservation 0 false 9 = invTerminal :=
  fulfill_terminal_noop invTerminal 0 ⟨4, some "order-C", false, none, some 1, none⟩
    false 9 rfl rfl

/-- C8: when `qty_available ≥ q`, `reserve_stock q` immediately followed by
`unreserve_stock` on the reservation it created (appended at index
`s.reservations.length`) restores `qty_reserved` to exactly its value
before the reserve. -/
theorem reserve_release_roundtrip (s : Inventory) (q : Int) (ref : Option String)
    (exp : Option Int) (session : Bool) (now now' : Int)
    (h : q ≤ s.qty_available) :
    ((s.reserve_stock q ref exp session now).2.unreserve_stock
        s.reservations.length session now').qty_reserved = s.qty_reserved := by
  have hres := reserve_stock_of_sufficient s q ref exp session now h
  set t := (s.reserve_stock q ref exp session now).2 with ht
  have hpair : t = (s.reserve_stock q ref exp session now).2 := ht
  rw [hres] at hpair
  have htr : t.qty_reserved = s.qty_reserved + q := by
    rw [hpair]; cases session <;> simp [adjust_stock_qty_reserved]
  have htl : t.reservations =
      s.reservations ++ [⟨q, ref, true, exp, none, none⟩] := by
    rw [hpair]; cases session <;> simp [adjust_stock_reservations]
  have hget : t.reservations[s.reservations.length]? =
      some ⟨q, ref, true, exp, none, none⟩ := by
    rw [htl]; exact List.getElem?_concat_length _ _
  rw [unreserve_stock_active t s.reservations.length _ session now' hget rfl]
  cases session <;> simp [adjust_stock_qty_reserved, htr]

/-- Witness for C8: `reserve(7, "order-A")` then release on the
scenario-1 record restores `qty_reserved = 0`. -/
theorem reserve_release_roundtrip_witness :
    7 ≤ inv10.qty_available ∧
    ((inv10.reserve_stock 7 (some "order-A") none true 0).2.unreserve_stock
        0 true 1).qty_reserved = inv10.qty_reserved :=
  ⟨by decide, reserve_release_roundtrip inv10 7 (some "order-A") none true 0 1 (by decide)⟩

/-! ### Lemmas about `activeSum` -/

theorem activeSum_nonneg (l : List StockReservation)
    (h : ∀ r ∈ l, r.is_active = true → 0 ≤ r.quantity) : 0 ≤ activeSum l := by
  induction l with
  | nil => simp [activeSum]
  | cons x rest ih =>
    have hrest : 0 ≤ activeSum rest :=
      ih fun y hy hay => h y (List.mem_cons_of_mem _ hy) hay
    simp only [activeSum]
    cases ha : x.is_active with
    | false => simpa using hrest
    | true =>
      have hx := h x (List.mem_cons_self x rest) ha
      rw [if_pos rfl]
      omega

theorem quantity_le_activeSum (l : List StockReservation) (r : StockReservation)
    (h : ∀ x ∈ l, x.is_active = true → 0 ≤ x.quantity)
    (hm : r ∈ l) (ha : r.is_active = true) : r.quantity ≤ activeSum l := by
  induction l with
  | nil => cases hm
  | cons x rest ih =>
    have hrest : 0 ≤ activeSum rest :=
      activeSum_nonneg rest fun y hy hay => h y (List.mem_cons_of_mem _ hy) hay
    rcases List.mem_cons.mp hm with heq | hmem
    · subst heq
      simp only [activeSum, ha, if_true]
      omega
    · have hr := ih (fun y hy hay => h y (List.mem_cons_of_mem _ hy) hay) hmem
      simp only [activeSum]
      cases hx : x.is_active with
      | false => rw [if_neg (by simp)]; omega
      | true =>
        have hxq := h x (List.mem_cons_self x rest) hx
        rw [if_pos rfl]; omega

theorem activeSum_append (l₁ l₂ : List StockReservation) :
    activeSum (l₁ ++ l₂) = activeSum l₁ + activeSum l₂ := by
  induction l₁ with
  | nil => simp [activeSum]
  | cons x rest ih =>
    simp only [List.cons_append, activeSum, List.append_eq, ih]
    ring

theorem activeSum_set_inactive (l : List StockReservation) (idx : Nat)
    (r r' : StockReservation) (h : l[idx]? = some r) (ha : r.is_active = true)
    (ha' : r'.is_active = false) :
    activeSum (l.set idx r') = activeSum l - r.quantity := by
  induction l generalizing idx with
  | nil => simp at h
  | cons x rest ih =>
    cases idx with
    | zero =>
      have hx : x = r := by simpa using h
      subst hx
      simp only [List.set_cons_zero, activeSum]
      rw [if_pos ha, if_neg (by simp [ha'])]
      ring
    | succ n =>
      have hn : rest[n]? = some r := by simpa using h
      simp only [List.set_cons_succ, activeSum, ih n hn]
      ring

/-! ### Preservation of the quantity invariants by call sequences -/

theorem wf_applyOp (now : Int) (s : Inventory) (op : StockOp)
    (hop : okOp op) (hs : s.Wf) : (s.applyOp false now op).Wf := by
  obtain ⟨hc, hr0, hrh, has, hq⟩ := hs
  cases op with
  | adjust qc mt => exact absurd hop id
  | reserve q =>
    simp only [Inventory.applyOp]
    by_cases h : q ≤ s.qty_available
    · rw [reserve_stock_of_sufficient s q none none false now h]
      simp only [if_false, Bool.false_eq_true]
      have hq' : (0 : Int) ≤ q := hop
      have havail : q ≤ s.qty_on_hand - s.qty_reserved - s.qty_committed := h
      refine ⟨hc, by dsimp only; omega, by dsimp only; omega, ?_, ?_⟩
      · dsimp only
        rw [activeSum_append]
        simp only [activeSum, if_true]
        omega
      · intro x hx hax
        rcases List.mem_append.mp hx with hx1 | hx2
        · exact hq x hx1 hax
        · have : x = ⟨q, none, true, none, none, none⟩ := by simpa using hx2
          subst this
          exact hq'
    · have hlt : s.qty_available < q := by omega
      rw [reserve_stock_of_insufficient s q none none false now hlt]
      exact ⟨hc, hr0, hrh, has, hq⟩
  | release idx =>
    simp only [Inventory.applyOp]
    cases hg : s.reservations[idx]? with
    | none =>
      rw [unreserve_stock_none s idx false now hg]
      exact ⟨hc, hr0, hrh, has, hq⟩
    | some r =>
      cases har : r.is_active with
      | false =>
        rw [unreserve_stock_inactive s idx r false now hg har]
        exact ⟨hc, hr0, hrh, has, hq⟩
      | true =>
        rw [unreserve_stock_active s idx r false now hg har]
        simp only [if_false, Bool.false_eq_true]
        obtain ⟨hlen, hval⟩ := List.getElem?_eq_some.mp hg
        have hmem : r ∈ s.reservations := hval ▸ List.getElem_mem hlen
        have hrq : 0 ≤ r.quantity := hq r hmem har
        have hle : r.quantity ≤ activeSum s.reservations :=
          quantity_le_activeSum s.reservations r hq hmem har
        have hset : activeSum (s.reservations.set idx
            { r with is_active := false, released_at := some now }) =
            activeSum s.reservations - r.quantity :=
          activeSum_set_inactive s.reservations idx r _ hg har rfl
        refine ⟨hc, by dsimp only; omega, by dsimp only; omega,
          by dsimp only; rw [hset]; omega, ?_⟩
        intro x hx hax
        rcases List.mem_or_eq_of_mem_set hx with hx1 | hx2
        · exact hq x hx1 hax
        · subst hx2; simp at hax
  | fulfill idx =>
    simp only [Inventory.applyOp]
    cases hg : s.reservations[idx]? with
    | none =>
      rw [fulfill_reservation_none s idx false now hg]
      exact ⟨hc, hr0, hrh, has, hq⟩
    | some r =>
      cases har : r.is_active with
      | false =>
        rw [fulfill_reservation_inactive s idx r false now hg har]
        exact ⟨hc, hr0, hrh, has, hq⟩
      | true =>
        rw [fulfill_reservation_active s idx r false now hg har]
        simp only [if_false, Bool.false_eq_true]
        obtain ⟨hlen, hval⟩ := List.getElem?_eq_some.mp hg
        have hmem : r ∈ s.reservations := hval ▸ List.getElem_mem hlen
        have hrq : 0 ≤ r.quantity := hq r hmem har
        have hle : r.quantity ≤ activeSum s.reservations :=
          quantity_le_activeSum s.reservations r hq hmem har
        have hset : activeSum (s.reservations.set idx
            { r with is_active := false, fulfilled_at := some now }) =
            activeSum s.reservations - r.quantity :=
          activeSum_set_inactive s.reservations idx r _ hg har rfl
        refine ⟨hc, by dsimp only; omega, by dsimp only; omega,
          by dsimp only; rw [hset]; omega, ?_⟩
        intro x hx hax
        rcases List.mem_or_eq_of_mem_set hx with hx1 | hx2
        · exact hq x hx1 hax
        · subst hx2; simp at hax

theorem wf_runOps (now : Int) (s : Inventory) (ops : List StockOp)
    (hs : s.Wf) (hops : ∀ op ∈ ops, okOp op) :
    (Inventory.runOps false now s ops).Wf := by
  induction ops generalizing s with
  | nil => exact hs
  | cons op rest ih =>
    exact ih (s.applyOp false now op)
      (wf_applyOp now s op (hops op (List.mem_cons_self op rest)) hs)
      (fun x hx => hops x (List.mem_cons_of_mem _ hx))

/-- C1 (amended): for every sequence of `reserve_stock`, `unreserve_stock`
and `fulfill_reservation` calls (no `adjust_stock`) with nonnegative
reserve quantities and without a db session, starting from a valid state,
at every observable point — i.e. after every initial segment of the
sequence — `0 ≤ qty_reserved ≤ qty_on_hand` and `qty_on_hand ≥ 0`.
`adjust_stock` must stay excluded because it validates nothing, and the
session path of `fulfill_reservation` must stay excluded because its
double decrement of `qty_on_hand` (the C5 bug) can also break the
invariant. -/
theorem stock_invariant_no_adjust (s : Inventory) (ops : List StockOp) (now : Int)
    (hs : s.Wf) (hops : ∀ op ∈ ops, okOp op) :
    ∀ pre, pre <+: ops →
      0 ≤ (Inventory.runOps false now s pre).qty_reserved ∧
      (Inventory.runOps false now s pre).qty_reserved ≤
        (Inventory.runOps false now s pre).qty_on_hand ∧
      0 ≤ (Inventory.runOps false now s pre).qty_on_hand := by
  intro pre hpre
  obtain ⟨t, ht⟩ := hpre
  have hpre_ok : ∀ op ∈ pre, okOp op := fun op hop =>
    hops op (ht ▸ List.mem_append_left t hop)
  obtain ⟨_, h1, h2, _, _⟩ := wf_runOps now s pre hs hpre_ok
  exact ⟨h1, h2, le_trans h1 h2⟩

/-- C1 counterexample: the empty record is valid, yet the one-call sequence
`adjust_stock (-1)` — a legal "adjust" observable point — leaves
`qty_on_hand = -1 < 0`, because `adjust_stock` performs no validation. -/
theorem stock_invariant_counterexample :
    inv0.Wf ∧
    (Inventory.runOps true 0 inv0 [.adjust (-1) .ADJUSTMENT]).qty_on_hand < 0 := by
  decide

/-- Witness for the amended C1: the scenario 1–4 call sequence on the
`on_hand = 10` record keeps the invariant. -/
theorem stock_invariant_no_adjust_witness :
    0 ≤ (Inventory.runOps false 0 inv10
      [StockOp.reserve 7, .release 0, .reserve 4, .fulfill 1]).qty_reserved ∧
    (Inventory.runOps false 0 inv10
      [StockOp.reserve 7, .release 0, .reserve 4, .fulfill 1]).qty_reserved ≤
      (Inventory.runOps false 0 inv10
        [StockOp.reserve 7, .release 0, .reserve 4, .fulfill 1]).qty_on_hand ∧
    0 ≤ (Inventory.runOps false 0 inv10
      [StockOp.reserve 7, .release 0, .reserve 4, .fulfill 1]).qty_on_hand :=
  stock_invariant_no_adjust inv10
    [StockOp.reserve 7, .release 0, .reserve 4, .fulfill 1] 0
    (by decide) (by decide)
    [StockOp.reserve 7, .release 0, .reserve 4, .fulfill 1] ⟨[], by simp⟩

/-! ### Field-level facts about the mutators -/

theorem reserve_stock_qty_reserved_of_sufficient (s : Inventory) (q : Int)
    (ref : Option String) (exp : Option Int) (session : Bool) (now : Int)
    (h : q ≤ s.qty_available) :
    (s.reserve_stock q ref exp session now).2.qty_reserved = s.qty_reserved + q := by
  rw [reserve_stock_of_sufficient s q ref exp session now h]
  cases session <;> simp [adjust_stock_qty_reserved]

theorem reserve_stock_reservations_of_sufficient (s : Inventory) (q : Int)
    (ref : Option String) (exp : Option Int) (session : Bool) (now : Int)
    (h : q ≤ s.qty_available) :
    (s.reserve_stock q ref exp session now).2.reservations =
      s.reservations ++ [⟨q, ref, true, exp, none, none⟩] := by
  rw [reserve_stock_of_sufficient s q ref exp session now h]
  cases session <;> simp [adjust_stock_reservations]

theorem unreserve_stock_qty_reserved_active (s : Inventory) (idx : Nat)
    (r : StockReservation) (session : Bool) (now : Int)
    (h : s.reservations[idx]? = some r) (ha : r.is_active = true) :
    (s.unreserve_stock idx session now).qty_reserved =
      s.qty_reserved - r.quantity := by
  rw [unreserve_stock_active s idx r session now h ha]
  cases session <;> simp [adjust_stock_qty_reserved]

theorem unreserve_stock_reservations_active (s : Inventory) (idx : Nat)
    (r : StockReservation) (session : Bool) (now : Int)
    (h : s.reservations[idx]? = some r) (ha : r.is_active = true) :
    (s.unreserve_stock idx session now).reservations =
      s.reservations.set idx { r with is_active := false, released_at := some now } := by
  rw [unreserve_stock_active s idx r session now h ha]
  cases session <;> simp [adjust_stock_reservations]

theorem fulfill_reservation_qty_reserved_active (s : Inventory) (idx : Nat)
    (r : StockReservation) (session : Bool) (now : Int)
    (h : s.reservations[idx]? = some r) (ha : r.is_active = true) :
    (s.fulfill_reservation idx session now).qty_reserved =
      s.qty_reserved - r.quantity := by
  rw [fulfill_reservation_active s idx r session now h ha]
  cases session <;> simp [adjust_stock_qty_reserved]

theorem fulfill_reservation_reservations_active (s : Inventory) (idx : Nat)
    (r : StockReservation) (session : Bool) (now : Int)
    (h : s.reservations[idx]? = some r) (ha : r.is_active = true) :
    (s.fulfill_reservation idx session now).reservations =
      s.reservations.set idx { r with is_active := false, fulfilled_at := some now } := by
  rw [fulfill_reservation_active s idx r session now h ha]
  cases session <;> simp [adjust_stock_reservations]

theorem coherent_applyOp (session : Bool) (now : Int) (s : Inventory) (op : StockOp)
    (hop : okOp op) (h : s.ReservedCoherent) :
    (s.applyOp session now op).ReservedCoherent := by
  obtain ⟨heq, hq⟩ := h
  cases op with
  | adjust qc mt => exact absurd hop id
  | reserve q =>
    simp only [Inventory.applyOp]
    by_cases hcf : q ≤ s.qty_available
    · constructor
      · rw [reserve_stock_qty_reserved_of_sufficient s q none none session now hcf,
          reserve_stock_reservations_of_sufficient s q none none session now hcf,
          activeSum_append]
        simp only [activeSum, if_true]
        omega
      · rw [reserve_stock_reservations_of_sufficient s q none none session now hcf]
        intro x hx hax
        rcases List.mem_append.mp hx with hx1 | hx2
        · exact hq x hx1 hax
        · have hx3 : x = ⟨q, none, true, none, none, none⟩ := by simpa using hx2
          subst hx3
          exact hop
    · have hlt : s.qty_available < q := by omega
      rw [reserve_stock_of_insufficient s q none none session now hlt]
      exact ⟨heq, hq⟩
  | release idx =>
    simp only [Inventory.applyOp]
    cases hg : s.reservations[idx]? with
    | none =>
      rw [unreserve_stock_none s idx session now hg]; exact ⟨heq, hq⟩
    | some r =>
      cases har : r.is_active with
      | false =>
        rw [unreserve_stock_inactive s idx r session now hg har]; exact ⟨heq, hq⟩
      | true =>
        have hset := activeSum_set_inactive s.reservations idx r
          { r with is_active := false, released_at := some now } hg har rfl
        constructor
        · rw [unreserve_stock_qty_reserved_active s idx r session now hg har,
            unreserve_stock_reservations_active s idx r session now hg har, hset]
          omega
        · rw [unreserve_stock_reservations_active s idx r session now hg har]
          intro x hx hax
          rcases List.mem_or_eq_of_mem_set hx with hx1 | hx2
          · exact hq x hx1 hax
          · subst hx2; simp at hax
  | fulfill idx =>
    simp only [Inventory.applyOp]
    cases hg : s.reservations[idx]? with
    | none =>
      rw [fulfill_reservation_none s idx session now hg]; exact ⟨heq, hq⟩
    | some r =>
      cases har : r.is_active with
      | false =>
        rw [fulfill_reservation_inactive s idx r session now hg har]; exact ⟨heq, hq⟩
      | true =>
        have hset := activeSum_set_inactive s.reservations idx r
          { r with is_active := false, fulfilled_at := some now } hg har rfl
        constructor
        · rw [fulfill_reservation_qty_reserved_active s idx r session now hg har,
            fulfill_reservation_reservations_active s idx r session now hg har, hset]
          omega
        · rw [fulfill_reservation_reservations_active s idx r session now hg har]
          intro x hx hax
          rcases List.mem_or_eq_of_mem_set hx with hx1 | hx2
          · exact hq x hx1 hax
          · subst hx2; simp at hax

theorem coherent_runOps (session : Bool) (now : Int) (s : Inventory)
    (ops : List StockOp) (hs : s.ReservedCoherent)
    (hops : ∀ op ∈ ops, okOp op) :
    (Inventory.runOps session now s ops).ReservedCoherent := by
  induction ops generalizing s with
  | nil => exact hs
  | cons op rest ih =>
    exact ih (s.applyOp session now op)
      (coherent_applyOp session now s op (hops op (List.mem_cons_self op rest)) hs)
      (fun x hx => hops x (List.mem_cons_of_mem _ hx))

/-- C10 (amended): for every sequence of `reserve_stock`,
`unreserve_stock` and `fulfill_reservation` calls with nonnegative reserve
quantities (no `adjust_stock`), starting with `qty_reserved = 0` and no
reservations, `qty_reserved` at every observable point equals the total
quantity of the reservations whose `is_active` flag is true, and in
particular never becomes negative.  The nonnegativity hypothesis on the
reserve quantities is needed: `reserve_stock` accepts a negative quantity
(see the counterexample). -/
theorem reserved_eq_active_reservations (s : Inventory) (ops : List StockOp)
    (session : Bool) (now : Int)
    (h0 : s.qty_reserved = 0) (h0l : s.reservations = [])
    (hops : ∀ op ∈ ops, okOp op) :
    ∀ pre, pre <+: ops →
      (Inventory.runOps session now s pre).qty_reserved =
        activeSum (Inventory.runOps session now s pre).reservations ∧
      0 ≤ (Inventory.runOps session now s pre).qty_reserved := by
  intro pre hpre
  obtain ⟨t, ht⟩ := hpre
  have hok : ∀ op ∈ pre, okOp op := fun op hop =>
    hops op (ht ▸ List.mem_append_left t hop)
  have hcoh : s.ReservedCoherent :=
    ⟨by rw [h0, h0l]; rfl, by rw [h0l]; intro r hr; cases hr⟩
  obtain ⟨he, hqs⟩ := coherent_runOps session now s pre hcoh hok
  exact ⟨he, he ▸ activeSum_nonneg _ hqs⟩

/-- C10 counterexample: `reserve_stock` accepts a negative quantity
(`can_fulfill (-5)` holds on the empty record since `0 ≥ -5`), so the
single reserve call of quantity `-5` drives `qty_reserved` to `-5 < 0`,
refuting the claim's "never becomes negative" as stated. -/
theorem reserved_eq_counterexample :
    inv0.qty_reserved = 0 ∧ inv0.reservations = [] ∧
    (Inventory.runOps false 0 inv0 [.reserve (-5)]).qty_reserved < 0 := by
  decide

/-- Witness for the amended C10: reserve 7, release it, reserve 4, fulfill
it, on the `on_hand = 10` record. -/
theorem reserved_eq_active_reservations_witness :
    (Inventory.runOps true 0 inv10
      [StockOp.reserve 7, .release 0, .reserve 4, .fulfill 1]).qty_reserved =
      activeSum (Inventory.runOps true 0 inv10
        [StockOp.reserve 7, .release 0, .reserve 4, .fulfill 1]).reservations ∧
    0 ≤ (Inventory.runOps true 0 inv10
      [StockOp.reserve 7, .release 0, .reserve 4, .fulfill 1]).qty_reserved :=
  reserved_eq_active_reservations inv10
    [StockOp.reserve 7, .release 0, .reserve 4, .fulfill 1] true 0 rfl rfl
    (by decide) [StockOp.reserve 7, .release 0, .reserve 4, .fulfill 1] ⟨[], by simp⟩

/-- C6: `unreserve_stock` and `fulfill_reservation` are idempotent — the
second call on the same reservation is a no-op (the state is exactly the
state after one call), not an error — and no operation (`adjust`,
`reserve`, `release`, `fulfill`) transitions an existing terminal
reservation out of its terminal state. -/
theorem release_fulfill_idempotent :
    (∀ (s : Inventory) (idx : Nat) (session : Bool) (now now' : Int),
      (s.unreserve_stock idx session now).unreserve_stock idx session now' =
        s.unreserve_stock idx session now) ∧
    (∀ (s : Inventory) (idx : Nat) (session : Bool) (now now' : Int),
      (s.fulfill_reservation idx session now).fulfill_reservation idx session now' =
        s.fulfill_reservation idx session now) ∧
    (∀ (s : Inventory) (idx : Nat) (op : StockOp) (session : Bool) (now : Int),
      s.terminalAt idx → (s.applyOp session now op).terminalAt idx) := by
  refine ⟨?_, ?_, ?_⟩
  · intro s idx session now now'
    cases hg : s.reservations[idx]? with
    | none =>
      rw [unreserve_stock_none s idx session now hg,
        unreserve_stock_none s idx session now' hg]
    | some r =>
      cases har : r.is_active with
      | false =>
        rw [unreserve_stock_inactive s idx r session now hg har,
          unreserve_stock_inactive s idx r session now' hg har]
      | true =>
        have hlen : idx < s.reservations.length := (List.getElem?_eq_some.mp hg).1
        have hres : (s.unreserve_stock idx session now).reservations[idx]? =
            some { r with is_active := false, released_at := some now } := by
          rw [unreserve_stock_reservations_active s idx r session now hg har]
          exact List.getElem?_set_self (by simpa using hlen)
        exact unreserve_stock_inactive _ idx _ session now' hres rfl
  · intro s idx session now now'
    cases hg : s.reservations[idx]? with
    | none =>
      rw [fulfill_reservation_none s idx session now hg,
        fulfill_reservation_none s idx session now' hg]
    | some r =>
      cases har : r.is_active with
      | false =>
        rw [fulfill_reservation_inactive s idx r session now hg har,
          fulfill_reservation_inactive s idx r session now' hg har]
      | true =>
        have hlen : idx < s.reservations.length := (List.getElem?_eq_some.mp hg).1
        have hres : (s.fulfill_reservation idx session now).reservations[idx]? =
            some { r with is_active := false, fulfilled_at := some now } := by
          rw [fulfill_reservation_reservations_active s idx r session now hg har]
          exact List.getElem?_set_self (by simpa using hlen)
        exact fulfill_reservation_inactive _ idx _ session now' hres rfl
  · rintro s idx op session now ⟨r, hg, har⟩
    cases op with
    | adjust qc mt =>
      refine ⟨r, ?_, har⟩
      simp only [Inventory.applyOp]
      rw [adjust_stock_reservations]
      exact hg
    | reserve q =>
      simp only [Inventory.applyOp]
      by_cases hcf : q ≤ s.qty_available
      · refine ⟨r, ?_, har⟩
        rw [reserve_stock_reservations_of_sufficient s q none none session now hcf]
        have hlen : idx < s.reservations.length := (List.getElem?_eq_some.mp hg).1
        rw [List.getElem?_append_left hlen]
        exact hg
      · rw [reserve_stock_of_insufficient s q none none session now (by omega)]
        exact ⟨r, hg, har⟩
    | release idy =>
      simp only [Inventory.applyOp]
      cases hg' : s.reservations[idy]? with
      | none =>
        rw [unreserve_stock_none s idy session now hg']
        exact ⟨r, hg, har⟩
      | some r2 =>
        cases har2 : r2.is_active with
        | false =>
          rw [unreserve_stock_inactive s idy r2 session now hg' har2]
          exact ⟨r, hg, har⟩
        | true =>
          by_cases he : idy = idx
          · subst he
            rw [hg] at hg'
            injection hg' with h2
            subst h2
            simp [har] at har2
          · refine ⟨r, ?_, har⟩
            rw [unreserve_stock_reservations_active s idy r2 session now hg' har2,
              List.getElem?_set_ne he]
            exact hg
    | fulfill idy =>
      simp only [Inventory.applyOp]
      cases hg' : s.reservations[idy]? with
      | none =>
        rw [fulfill_reservation_none s idy session now hg']
        exact ⟨r, hg, har⟩
      | some r2 =>
        cases har2 : r2.is_active with
        | false =>
          rw [fulfill_reservation_inactive s idy r2 session now hg' har2]
          exact ⟨r, hg, har⟩
        | true =>
          by_cases he : idy = idx
          · subst he
            rw [hg] at hg'
            injection hg' with h2
            subst h2
            simp [har] at har2
          · refine ⟨r, ?_, har⟩
            rw [fulfill_reservation_reservations_active s idy r2 session now hg' har2,
              List.getElem?_set_ne he]
            exact hg

/-- Witness for C6: a fresh `reserve` call leaves the already-released
reservation of the concrete record terminal. -/
theorem release_fulfill_idempotent_witness :
    Inventory.terminalAt (Inventory.applyOp true 0 invTerminal (.reserve 2)) 0 :=
  release_fulfill_idempotent.2.2 invTerminal 0 (.reserve 2) true 0
    ⟨⟨4, some "order-C", false, none, some 1, none⟩, rfl, rfl⟩

/-- C4 (code bug): `reserve_stock` reads `can_fulfill` (line 136) and
writes `qty_reserved` (line 139) as two separate accesses with no lock or
compare-and-swap, so under the interleaving check₁, check₂, write₁, write₂
two concurrent calls of quantities 7 and 5 against the record with
`available = 10` both succeed: their total 12 exceeds the initial
availability 10, and the record ends with
`qty_reserved = 12 > qty_on_hand = 10`. -/
theorem concurrent_reserve_oversell :
    inv10.qty_available = 10 ∧
    ((runSchedule ⟨inv10, [⟨7, none, none⟩, ⟨5, none, none⟩]⟩
        [0, 1, 0, 1]).calls.map fun c => c.result) = [some true, some true] ∧
    succeededQty (runSchedule ⟨inv10, [⟨7, none, none⟩, ⟨5, none, none⟩]⟩
      [0, 1, 0, 1]).calls = 12 ∧
    (runSchedule ⟨inv10, [⟨7, none, none⟩, ⟨5, none, none⟩]⟩
      [0, 1, 0, 1]).record.qty_reserved = 12 := by
  decide

/-! ### Lemmas about the ExpirySweeper -/

theorem should_be_released_active (r : StockReservation) (now : Int)
    (h : r.should_be_released now = true) : r.is_active = true :=
  (Bool.and_eq_true_iff.mp h).1

theorem should_be_released_of_inactive (r : StockReservation) (now : Int)
    (h : r.is_active = false) : r.should_be_released now = false := by
  unfold StockReservation.should_be_released
  rw [h]
  rfl

theorem sweepStep_none (s : Inventory) (idx : Nat) (session : Bool) (now : Int)
    (hg : s.reservations[idx]? = none) :
    s.sweepStep idx session now = s := by
  unfold Inventory.sweepStep
  rw [hg]

theorem sweepStep_not_expired (s : Inventory) (idx : Nat) (r : StockReservation)
    (session : Bool) (now : Int)
    (hg : s.reservations[idx]? = some r) (hsr : r.should_be_released now = false) :
    s.sweepStep idx session now = s := by
  unfold Inventory.sweepStep
  rw [hg]
  simp [hsr]

theorem sweepStep_expired (s : Inventory) (idx : Nat) (r : StockReservation)
    (session : Bool) (now : Int)
    (hg : s.reservations[idx]? = some r) (hsr : r.should_be_released now = true) :
    s.sweepStep idx session now = s.unreserve_stock idx session now := by
  unfold Inventory.sweepStep
  rw [hg]
  simp [hsr]

theorem unreserve_stock_getElem_ne (s : Inventory) (i j : Nat) (session : Bool)
    (now : Int) (hne : i ≠ j) :
    (s.unreserve_stock i session now).reservations[j]? = s.reservations[j]? := by
  cases hg : s.reservations[i]? with
  | none => rw [unreserve_stock_none s i session now hg]
  | some r =>
    cases har : r.is_active with
    | false => rw [unreserve_stock_inactive s i r session now hg har]
    | true =>
      rw [unreserve_stock_reservations_active s i r session now hg har]
      exact List.getElem?_set_ne hne

theorem sweepStep_getElem_ne (s : Inventory) (i j : Nat) (session : Bool)
    (now : Int) (hne : i ≠ j) :
    (s.sweepStep i session now).reservations[j]? = s.reservations[j]? := by
  cases hg : s.reservations[i]? with
  | none => rw [sweepStep_none s i session now hg]
  | some r =>
    cases hsr : r.should_be_released now with
    | false => rw [sweepStep_not_expired s i r session now hg hsr]
    | true =>
      rw [sweepStep_expired s i r session now hg hsr]
      exact unreserve_stock_getElem_ne s i j session now hne

theorem sweepFrom_getElem_not_mem (session : Bool) (now : Int) (l : List Nat)
    (s : Inventory) (j : Nat) (hj : j ∉ l) :
    (Inventory.sweepFrom session now s l).reservations[j]? = s.reservations[j]? := by
  induction l generalizing s with
  | nil => rfl
  | cons i rest ih =>
    have hne : i ≠ j := fun he => hj (he ▸ List.mem_cons_self i rest)
    have hrest : j ∉ rest := fun hm => hj (List.mem_cons_of_mem _ hm)
    show (Inventory.sweepFrom session now (s.sweepStep i session now) rest).reservations[j]? = _
    rw [ih (s.sweepStep i session now) hrest]
    exact sweepStep_getElem_ne s i j session now hne

theorem sweepFrom_releases (session : Bool) (now : Int) (l : List Nat)
    (s : Inventory) (idx : Nat) (r : StockReservation)
    (hnd : l.Nodup) (hmem : idx ∈ l)
    (hg : s.reservations[idx]? = some r)
    (hsr : r.should_be_released now = true) :
    (Inventory.sweepFrom session now s l).reservations[idx]? =
      some { r with is_active := false, released_at := some now } := by
  induction l generalizing s with
  | nil => cases hmem
  | cons i rest ih =>
    have hnd' : rest.Nodup := (List.nodup_cons.mp hnd).2
    have hni : i ∉ rest := (List.nodup_cons.mp hnd).1
    show (Inventory.sweepFrom session now (s.sweepStep i session now) rest).reservations[idx]? = _
    by_cases he : i = idx
    · subst he
      rw [sweepStep_expired s i r session now hg hsr]
      have hact : r.is_active = true := should_be_released_active r now hsr
      have hlen : i < s.reservations.length := (List.getElem?_eq_some.mp hg).1
      have hafter : (s.unreserve_stock i session now).reservations[i]? =
          some { r with is_active := false, released_at := some now } := by
        rw [unreserve_stock_reservations_active s i r session now hg hact]
        exact List.getElem?_set_self (by simpa using hlen)
      rw [sweepFrom_getElem_not_mem session now rest _ i hni]
      exact hafter
    · have hmem' : idx ∈ rest := by
        rcases List.mem_cons.mp hmem with h1 | h2
        · exact absurd h1.symm he
        · exact h2
      have hg' : (s.sweepStep i session now).reservations[idx]? = some r := by
        rw [sweepStep_getElem_ne s i idx session now he]
        exact hg
      exact ih _ hnd' hmem' hg'

theorem sweepFrom_keeps (session : Bool) (now : Int) (l : List Nat)
    (s : Inventory) (idx : Nat) (r : StockReservation)
    (hnd : l.Nodup) (hmem : idx ∈ l)
    (hg : s.reservations[idx]? = some r)
    (hsr : r.should_be_released now = false) :
    (Inventory.sweepFrom session now s l).reservations[idx]? = some r := by
  induction l generalizing s with
  | nil => cases hmem
  | cons i rest ih =>
    have hnd' : rest.Nodup := (List.nodup_cons.mp hnd).2
    have hni : i ∉ rest := (List.nodup_cons.mp hnd).1
    show (Inventory.sweepFrom session now (s.sweepStep i session now) rest).reservations[idx]? = _
    by_cases he : i = idx
    · subst he
      rw [sweepStep_not_expired s i r session now hg hsr]
      rw [sweepFrom_getElem_not_mem session now rest _ i hni]
      exact hg
    · have hmem' : idx ∈ rest := by
        rcases List.mem_cons.mp hmem with h1 | h2
        · exact absurd h1.symm he
        · exact h2
      have hg' : (s.sweepStep i session now).reservations[idx]? = some r := by
        rw [sweepStep_getElem_ne s i idx session now he]
        exact hg
      exact ih _ hnd' hmem' hg'

theorem sweepFrom_id_of_none_expired (session : Bool) (now : Int) (l : List Nat)
    (s : Inventory)
    (h : ∀ (j : Nat) (r : StockReservation),
      s.reservations[j]? = some r → r.should_be_released now = false) :
    Inventory.sweepFrom session now s l = s := by
  induction l with
  | nil => rfl
  | cons i rest ih =>
    show Inventory.sweepFrom session now (s.sweepStep i session now) rest = s
    have hstep : s.sweepStep i session now = s := by
      cases hg : s.reservations[i]? with
      | none => exact sweepStep_none s i session now hg
      | some r => exact sweepStep_not_expired s i r session now hg (h i r hg)
    rw [hstep, ih]

theorem expiredQty_cons (s : Inventory) (now : Int) (i : Nat) (l : List Nat) :
    expiredQty s now (i :: l) = expiredTerm now s i + expiredQty s now l := by
  simp [expiredQty]

theorem expiredTerm_of_expired (s : Inventory) (now : Int) (i : Nat)
    (r : StockReservation)
    (hg : s.reservations[i]? = some r) (hsr : r.should_be_released now = true) :
    expiredTerm now s i = r.quantity := by
  unfold expiredTerm
  rw [hg]
  simp [hsr]

theorem expiredTerm_of_not_expired (s : Inventory) (now : Int) (i : Nat)
    (r : StockReservation)
    (hg : s.reservations[i]? = some r) (hsr : r.should_be_released now = false) :
    expiredTerm now s i = 0 := by
  unfold expiredTerm
  rw [hg]
  simp [hsr]

theorem expiredTerm_of_none (s : Inventory) (now : Int) (i : Nat)
    (hg : s.reservations[i]? = none) : expiredTerm now s i = 0 := by
  unfold expiredTerm
  rw [hg]

theorem expiredQty_congr (s1 s2 : Inventory) (now : Int) (l : List Nat)
    (h : ∀ j ∈ l, s1.reservations[j]? = s2.reservations[j]?) :
    expiredQty s1 now l = expiredQty s2 now l := by
  unfold expiredQty
  refine congrArg List.sum (List.map_eq_map_iff.mpr ?_)
  intro j hj
  unfold expiredTerm
  rw [h j hj]

theorem sweepFrom_qty_reserved (session : Bool) (now : Int) (l : List Nat)
    (s : Inventory) (hnd : l.Nodup) :
    (Inventory.sweepFrom session now s l).qty_reserved =
      s.qty_reserved - expiredQty s now l := by
  induction l generalizing s with
  | nil => simp [Inventory.sweepFrom, expiredQty]
  | cons i rest ih =>
    have hnd' : rest.Nodup := (List.nodup_cons.mp hnd).2
    have hni : i ∉ rest := (List.nodup_cons.mp hnd).1
    show (Inventory.sweepFrom session now (s.sweepStep i session now) rest).qty_reserved = _
    rw [expiredQty_cons]
    cases hg : s.reservations[i]? with
    | none =>
      rw [sweepStep_none s i session now hg, ih _ hnd',
        expiredTerm_of_none s now i hg]
      ring
    | some r =>
      cases hsr : r.should_be_released now with
      | false =>
        rw [sweepStep_not_expired s i r session now hg hsr, ih _ hnd',
          expiredTerm_of_not_expired s now i r hg hsr]
        ring
      | true =>
        have hact := should_be_released_active r now hsr
        rw [sweepStep_expired s i r session now hg hsr, ih _ hnd']
        have hcong : expiredQty (s.unreserve_stock i session now) now rest =
            expiredQty s now rest :=
          expiredQty_congr _ _ now rest fun j hj =>
            unreserve_stock_getElem_ne s i j session now (fun he => hni (he ▸ hj))
        rw [hcong, unreserve_stock_qty_reserved_active s i r session now hg hact,
          expiredTerm_of_expired s now i r hg hsr]
        ring

theorem sweepExpired_no_expired_after (s : Inventory) (session : Bool) (now : Int) :
    ∀ (j : Nat) (rj : StockReservation),
      (s.sweepExpired session now).reservations[j]? = some rj →
      rj.should_be_released now = false := by
  intro j rj hj
  simp only [Inventory.sweepExpired] at hj
  by_cases hlt : j < s.reservations.length
  · have hmem : j ∈ List.range s.reservations.length := List.mem_range.mpr hlt
    cases hg : s.reservations[j]? with
    | none =>
      have := List.getElem?_eq_none_iff.mp hg
      omega
    | some r0 =>
      cases hs0 : r0.should_be_released now with
      | true =>
        rw [sweepFrom_releases session now _ s j r0
          (List.nodup_range _) hmem hg hs0] at hj
        injection hj with h2
        subst h2
        exact should_be_released_of_inactive _ now rfl
      | false =>
        rw [sweepFrom_keeps session now _ s j r0
          (List.nodup_range _) hmem hg hs0] at hj
        injection hj with h2
        subst h2
        exact hs0
  · have hnot : j ∉ List.range s.reservations.length := by
      simp only [List.mem_range]
      omega
    rw [sweepFrom_getElem_not_mem session now _ s j hnot] at hj
    rw [List.getElem?_eq_none_iff.mpr (by omega)] at hj
    cases hj

theorem sweepExpired_idempotent (s : Inventory) (session : Bool) (now : Int) :
    (s.sweepExpired session now).sweepExpired session now = s.sweepExpired session now := by
  show Inventory.sweepFrom session now (s.sweepExpired session now)
      (List.range (s.sweepExpired session now).reservations.length) =
    s.sweepExpired session now
  exact sweepFrom_id_of_none_expired session now _ _
    (sweepExpired_no_expired_after s session now)

theorem expiredQty_eq_zero (s : Inventory) (now : Int) (l : List Nat)
    (h : ∀ j ∈ l, expiredTerm now s j = 0) : expiredQty s now l = 0 := by
  induction l with
  | nil => rfl
  | cons i rest ih =>
    rw [expiredQty_cons, h i (List.mem_cons_self i rest),
      ih fun j hj => h j (List.mem_cons_of_mem _ hj)]
    ring

theorem expiredQty_eq_single (s : Inventory) (now : Int) (l : List Nat) (idx : Nat)
    (hnd : l.Nodup) (hmem : idx ∈ l)
    (h : ∀ j ∈ l, j ≠ idx → expiredTerm now s j = 0) :
    expiredQty s now l = expiredTerm now s idx := by
  induction l with
  | nil => cases hmem
  | cons i rest ih =>
    have hnd' := (List.nodup_cons.mp hnd).2
    have hni := (List.nodup_cons.mp hnd).1
    rw [expiredQty_cons]
    by_cases he : i = idx
    · subst he
      rw [expiredQty_eq_zero s now rest fun j hj =>
        h j (List.mem_cons_of_mem _ hj) (fun hji => hni (hji ▸ hj))]
      ring
    · rw [h i (List.mem_cons_self i rest) he]
      have hmem' : idx ∈ rest := by
        rcases List.mem_cons.mp hmem with h1 | h2
        · exact absurd h1.symm he
        · exact h2
      rw [ih hnd' hmem' fun j hj hne => h j (List.mem_cons_of_mem _ hj) hne]
      ring

/-- C9 (spec-modelled ExpirySweeper, predicate
`StockReservation.should_be_released` from the source): for every active
reservation whose `expires_at` lies strictly in the past, one sweep pass
(1) releases it — afterwards the reservation is inactive with
`released_at` stamped — (2) decreases `qty_reserved` by the total quantity
of the reservations due for release, (3) hence by exactly the
reservation's own quantity when it is the only one due, and (4) a second
pass over the swept record is a no-op. -/
theorem sweeper_releases_expired (s : Inventory) (idx : Nat) (r : StockReservation)
    (session : Bool) (now : Int)
    (hget : s.reservations[idx]? = some r)
    (hexp : r.should_be_released now = true) :
    (s.sweepExpired session now).reservations[idx]? =
      some { r with is_active := false, released_at := some now } ∧
    (s.sweepExpired session now).qty_reserved =
      s.qty_reserved - expiredQty s now (List.range s.reservations.length) ∧
    ((∀ (j : Nat) (rj : StockReservation), j ≠ idx →
        s.reservations[j]? = some rj → rj.should_be_released now = false) →
      (s.sweepExpired session now).qty_reserved = s.qty_reserved - r.quantity) ∧
    (s.sweepExpired session now).sweepExpired session now =
      s.sweepExpired session now := by
  have hlt : idx < s.reservations.length := (List.getElem?_eq_some.mp hget).1
  have hmem : idx ∈ List.range s.reservations.length := List.mem_range.mpr hlt
  have hnd := List.nodup_range s.reservations.length
  refine ⟨?_, ?_, ?_, sweepExpired_idempotent s session now⟩
  · show (Inventory.sweepFrom session now s
      (List.range s.reservations.length)).reservations[idx]? = _
    exact sweepFrom_releases session now _ s idx r hnd hmem hget hexp
  · show (Inventory.sweepFrom session now s
      (List.range s.reservations.length)).qty_reserved = _
    exact sweepFrom_qty_reserved session now _ s hnd
  · intro huniq
    have hterm : ∀ j ∈ List.range s.reservations.length, j ≠ idx →
        expiredTerm now s j = 0 := by
      intro j hj hne
      cases hgj : s.reservations[j]? with
      | none => exact expiredTerm_of_none s now j hgj
      | some rj =>
        exact expiredTerm_of_not_expired s now j rj hgj (huniq j rj hne hgj)
    show (Inventory.sweepFrom session now s
      (List.range s.reservations.length)).qty_reserved = _
    rw [sweepFrom_qty_reserved session now _ s hnd,
      expiredQty_eq_single s now _ idx hnd hmem hterm,
      expiredTerm_of_expired s now idx r hget hexp]

/-- Witness for C9: sweeping the record whose single active reservation
(quantity 4) expired at time 3 with `now = 5` releases it and drops
`qty_reserved` by 4. -/
theorem sweeper_releases_expired_witness :
    (invExpired.sweepExpired true 5).reservations[0]? =
      some ⟨4, some "order-D", false, some 3, some 5, none⟩ ∧
    (invExpired.sweepExpired true 5).qty_reserved =
      invExpired.qty_reserved - 4 := by
  have h := sweeper_releases_expired invExpired 0
    ⟨4, some "order-D", true, some 3, none, none⟩ true 5 rfl (by decide)
  refine ⟨h.1, h.2.2.1 ?_⟩
  intro j rj hne hg
  cases j with
  | zero => exact absurd rfl hne
  | succ n => simp [invExpired] at hg

end MaefInventory
